import Mathlib

/-!
Verification of the `ecs` repository (a minimal entity-component-system
library in Python 2) against its natural-language specification.

The embedding below translates the Python source shallowly:

* Python `dict` (insertion-ordered, first occurrence is the binding) is
  modelled as an association list `List (key × value)`.  Assignment to an
  existing key updates the entry in place, assignment to a fresh key
  appends at the end, `del` removes the entry — exactly CPython's
  observable ordering behaviour.
* Entity identifiers: `ecs/models.py` defines equality and hashing of
  `Entity` purely on the wrapped integer GUID, so an `Entity` key and a
  raw `int` key are interchangeable in the database.  The manager
  operations below therefore take the normalized integer identifier
  (`Int`) as the key, and the `Entity`/raw-int equality itself is
  modelled separately (`Entity.pyEq`, `pyHash`).
* Component instances are records carrying their concrete component type
  (a type tag `Nat`, standing for the Python class) and a payload; Python
  `type(component_instance)` is the `ctype` field.
* Raising an exception that the caller does not catch is modelled by
  returning the exception value (`Except`, or a `× Option error` pair for
  operations whose state on failure matters).
-/

namespace ECS

/-! ### Python `dict` as an insertion-ordered association list -/

/-- `d[k]`: first binding of key `a`, if any (`none` = `KeyError`). -/
def dictGet {α β : Type} [DecidableEq α] : List (α × β) → α → Option β
  | [], _ => none
  | (k, v) :: rest, a => if k = a then some v else dictGet rest a

/-- `d[k] = v`: update the existing entry in place, else append at the end. -/
def dictSet {α β : Type} [DecidableEq α] : List (α × β) → α → β → List (α × β)
  | [], a, b => [(a, b)]
  | (k, v) :: rest, a, b =>
    if k = a then (k, b) :: rest else (k, v) :: dictSet rest a b

/-- `del d[k]`: remove the entry of key `a` (no-op when absent). -/
def dictDel {α β : Type} [DecidableEq α] : List (α × β) → α → List (α × β)
  | [], _ => []
  | (k, v) :: rest, a => if k = a then rest else (k, v) :: dictDel rest a

/-- `list(d.keys())` in insertion order. -/
def dictKeys {α β : Type} (l : List (α × β)) : List α := l.map Prod.fst

/-- `k in d`. -/
def dictMem {α β : Type} [DecidableEq α] (a : α) (l : List (α × β)) : Bool :=
  (dictGet l a).isSome

/-! ### `ecs/models.py` — Entity, Component -/

/-- `Entity` (ecs/models.py): encapsulation of a GUID. -/
structure Entity where
  _guid : Int
  deriving DecidableEq

/-- A value usable where `Entity.__eq__` receives `other`: either another
`Entity` or a raw Python `int`. -/
inductive PyKey where
  | ent (e : Entity)
  | int (n : Int)
  deriving DecidableEq

/-- Python `hash(other)` for the two key forms: `Entity.__hash__` returns
`self._guid`; `hash` of an `int` is the integer itself. -/
def pyHash : PyKey → Int
  | .ent e => e._guid
  | .int n => n

/-- `Entity.__eq__` (ecs/models.py): `self._guid == hash(other)`. -/
def Entity.pyEq (e : Entity) (other : PyKey) : Bool :=
  e._guid == pyHash other

/-- A component instance: `ctype` is the tag standing for the Python class
(`type(component_instance)`), `value` the instance's own payload. -/
structure Component where
  ctype : Nat
  value : Nat
  deriving DecidableEq

/-- The component database: component type → (entity id → component). -/
abbrev Db := List (Nat × List (Int × Component))

/-! ### `ecs/exceptions.py` -/

/-- `NonexistentComponentTypeForEntity` carries the entity and the type. -/
structure NonexistentComponentTypeForEntity where
  entity_instance : Int
  component_type : Nat
  deriving DecidableEq

/-- `DuplicateSystemTypeError` carries the offending system type. -/
structure DuplicateSystemTypeError where
  system_type : Nat
  deriving DecidableEq

/-! ### `ecs/managers.py` — EntityManager -/

structure EntityManager where
  _database : Db
  _next_guid : Int
  deriving DecidableEq

/-- `EntityManager.__init__`. -/
def EntityManager.init : EntityManager := { _database := [], _next_guid := 0 }

/-- `EntityManager.create_entity`: returns `Entity(self._next_guid)` and the
manager with the counter incremented; the database is untouched. -/
def EntityManager.create_entity (em : EntityManager) : Entity × EntityManager :=
  (⟨em._next_guid⟩, { em with _next_guid := em._next_guid + 1 })

/-- `EntityManager.add_component`:
`component_type = type(component_instance)`; if the type is not a key of
the database an empty inner dict is inserted; then
`self._database[component_type][entity_id] = component_instance`.
(The inner dict is mutated in place in Python; here the updated inner dict
is written back.  The `getD []` default is unreachable: the guard just
above ensures the key is present.) -/
def EntityManager.add_component (em : EntityManager) (entity_id : Int)
    (component_instance : Component) : EntityManager :=
  let component_type := component_instance.ctype
  let db :=
    if dictMem component_type em._database then em._database
    else dictSet em._database component_type []
  let inner := (dictGet db component_type).getD []
  { em with
    _database := dictSet db component_type (dictSet inner entity_id component_instance) }

/-- Shared body of `remove_component` and of each iteration of
`remove_entity` (the Python code is identical in both places):
`del self._database[component_type][entity_id]`, then prune the type key
when the inner dict became empty; a `KeyError` from either subscript is
swallowed (`except KeyError: pass`), leaving the database unchanged. -/
def delAndPrune (db : Db) (component_type : Nat) (entity_id : Int) : Db :=
  match dictGet db component_type with
  | none => db
  | some inner =>
    if dictMem entity_id inner then
      let inner2 := dictDel inner entity_id
      if inner2 = [] then dictDel db component_type
      else dictSet db component_type inner2
    else db

/-- `EntityManager.remove_component`. -/
def EntityManager.remove_component (em : EntityManager) (entity_id : Int)
    (component_type : Nat) : EntityManager :=
  { em with _database := delAndPrune em._database component_type entity_id }

/-- `EntityManager.component_for_entity`: returns
`self._database[component_type][entity_id]`, raising
`NonexistentComponentTypeForEntity(entity_id, component_type)` on a
`KeyError` from either subscript. -/
def EntityManager.component_for_entity (em : EntityManager) (entity_id : Int)
    (component_type : Nat) : Except NonexistentComponentTypeForEntity Component :=
  match dictGet em._database component_type with
  | none => Except.error ⟨entity_id, component_type⟩
  | some inner =>
    match dictGet inner entity_id with
    | none => Except.error ⟨entity_id, component_type⟩
    | some c => Except.ok c

/-- The loop of `remove_entity` over the snapshot of type keys: for each
key, the `remove_component` body runs against the current database. -/
def removeEntityLoop (entity_id : Int) : List Nat → Db → Db
  | [], db => db
  | t :: rest, db => removeEntityLoop entity_id rest (delAndPrune db t entity_id)

/-- `EntityManager.remove_entity`: `for comp_type in self._database.keys()`
— under Python 2 (this package uses Python 2 syntax: `print` statements,
`iterkeys`) `dict.keys()` returns a fresh list, i.e. a stable snapshot of
the keys taken before the loop mutates the database, which is exactly what
the source's comment about avoiding `iterkeys()` relies on. -/
def EntityManager.remove_entity (em : EntityManager) (entity_id : Int) : EntityManager :=
  { em with
    _database := removeEntityLoop entity_id (dictKeys em._database) em._database }

/-- Modelled from the spec (refinement target for the snapshot-iteration
claim): "remove_entity(e) removes e from every type's inner mapping and
prunes any type left empty". -/
def removeEntitySpec (db : Db) (entity_id : Int) : Db :=
  (db.map (fun p => (p.1, dictDel p.2 entity_id))).filter
    (fun p => decide (p.2 ≠ []))

/-- Observer: the component stored for `(component_type, entity_id)`. -/
def lookup2 (db : Db) (component_type : Nat) (entity_id : Int) : Option Component :=
  (dictGet db component_type).bind (fun inner => dictGet inner entity_id)

/-- Well-formedness of the database: every inner mapping of a present type
key is non-empty with duplicate-free entity keys, and type keys are not
duplicated (key uniqueness is automatic for a Python dict). -/
def dbWF (db : Db) : Prop :=
  (∀ p ∈ db, p.2 ≠ [] ∧ (dictKeys p.2).Nodup) ∧ (dictKeys db).Nodup

/-- The reachable-state invariant of an `EntityManager`. -/
def dbInv (em : EntityManager) : Prop := dbWF em._database

instance (db : Db) : Decidable (dbWF db) := by
  unfold dbWF; infer_instance

instance (em : EntityManager) : Decidable (dbInv em) := by
  unfold dbInv dbWF; infer_instance

/-! ### `ecs/managers.py` — SystemManager (typed-failure variant) -/

/-- A system instance for the `ecs/managers.py` manager: `sysType` stands
for the concrete Python class (`type(system_instance)`), `sysId` for the
instance's identity. -/
structure MSystem where
  sysType : Nat
  sysId : Nat
  deriving DecidableEq

structure SystemManager where
  _systems : List MSystem
  _system_types : List (Nat × MSystem)
  deriving DecidableEq

/-- `SystemManager.__init__`. -/
def SystemManager.init : SystemManager := { _systems := [], _system_types := [] }

/-- Python `list.remove`: drop the first element equal to `a`. -/
def listRemove {α : Type} [DecidableEq α] : List α → α → List α
  | [], _ => []
  | x :: rest, a => if x = a then rest else x :: listRemove rest a

/-- `SystemManager.add_system` (ecs/managers.py): raise
`DuplicateSystemTypeError(system_type)` when the type is already
registered — before any mutation — else record the instance in
`_system_types` and append it to `_systems`.  The second component is the
raised exception, `none` on success; on an exception the returned state is
the manager exactly as it was. -/
def SystemManager.add_system (m : SystemManager) (system_instance : MSystem) :
    SystemManager × Option DuplicateSystemTypeError :=
  let system_type := system_instance.sysType
  if dictMem system_type m._system_types then
    (m, some ⟨system_type⟩)
  else
    ({ _systems := m._systems ++ [system_instance],
       _system_types := dictSet m._system_types system_type system_instance },
     none)

/-- `SystemManager.remove_system` (ecs/managers.py):
`self._systems.remove(self._system_types[system_type])` then
`del self._system_types[system_type]`.  The subscript is evaluated first,
so an unregistered type raises `KeyError(system_type)` (modelled as
`some system_type`) before anything is mutated. -/
def SystemManager.remove_system (m : SystemManager) (system_type : Nat) :
    SystemManager × Option Nat :=
  match dictGet m._system_types system_type with
  | none => (m, some system_type)
  | some inst =>
    ({ _systems := listRemove m._systems inst,
       _system_types := dictDel m._system_types system_type },
     none)

/-- `SystemManager.update` (ecs/managers.py): `for system in self._systems:
system.update(dt)` — the trace of update calls, in order. -/
def SystemManager.update (m : SystemManager) (dt : Int) : List (MSystem × Int) :=
  m._systems.map (fun s => (s, dt))

/-! ### `ecs/system.py` — the priority-scheduling SystemManager variant -/

/-- A system instance for `ecs/system.py`: `priority` is the mutable
attribute set by `add_system` (`__init__` initializes it to 0); `sysId`
models the instance's identity and records insertion order. -/
structure PySystem where
  sysType : Nat
  sysId : Nat
  priority : Int
  deriving DecidableEq

structure PySystemManager where
  _systems : List PySystem
  deriving DecidableEq

/-- One insertion step of a stable sort on `priority`: place `x` after
every element whose priority is ≤ its own. -/
def sortInsert (x : PySystem) : List PySystem → List PySystem
  | [] => [x]
  | y :: ys => if y.priority ≤ x.priority then y :: sortInsert x ys else x :: y :: ys

/-- `self._systems.sort(key=lambda s: s.priority)`: Python's `list.sort`
is a stable sort, and a stable sort's output is uniquely determined by the
key and the input order, so the stable insertion sort below is
extensionally the same function. -/
def pySort (l : List PySystem) : List PySystem :=
  l.foldl (fun acc x => sortInsert x acc) []

/-- `SystemManager.add_system` (ecs/system.py): raise
`DuplicateSystemTypeException` when the list comprehension
`[True for s in self._systems if type(s) is type(system_instance)]` is
non-empty; else set `system_instance.priority = priority`, append, and
re-sort by priority.  (`system_instance.sys_man = self`, the back
reference, carries no information bearing on the claims and is omitted.)
The Boolean is `true` when the exception was raised. -/
def PySystemManager.add_system (m : PySystemManager) (system_instance : PySystem)
    (priority : Int) : PySystemManager × Bool :=
  if (m._systems.filter (fun s => s.sysType == system_instance.sysType)).isEmpty then
    let inst := { system_instance with priority := priority }
    (⟨pySort (m._systems ++ [inst])⟩, false)
  else (m, true)

/-- `SystemManager.update_systems` (ecs/system.py): `for system in
self._systems: system.update(dt, entity_manager)` — the trace of update
calls, in order (the entity-manager argument is the same for all calls and
is not part of the trace). -/
def PySystemManager.update_systems (m : PySystemManager) (dt : Int) :
    List (PySystem × Int) :=
  m._systems.map (fun s => (s, dt))

/-- Register a list of `(system type, priority)` pairs one `add_system`
call at a time, numbering the fresh instances from `i`; a raised duplicate
exception aborts the whole registration (`none`). -/
def registerFromPy (m : PySystemManager) (i : Nat) :
    List (Nat × Int) → Option PySystemManager
  | [] => some m
  | (t, p) :: rest =>
    let r := m.add_system ⟨t, i, 0⟩ p
    if r.2 then none else registerFromPy r.1 (i + 1) rest

/-- Register a list of `(system type, priority)` pairs on a fresh manager. -/
def registerAllPy (regs : List (Nat × Int)) : Option PySystemManager :=
  registerFromPy ⟨[]⟩ 0 regs

/-- The instances that the registrations `regs`, numbered from `i`, create:
one per registration, carrying its registered priority. -/
def mkPySystemsFrom (i : Nat) : List (Nat × Int) → List PySystem
  | [] => []
  | (t, p) :: rest => ⟨t, i, p⟩ :: mkPySystemsFrom (i + 1) rest

/-- Scheduling order: ascending priority, ties broken by insertion order
(`sysId` records the insertion index). -/
def lexPS (a b : PySystem) : Prop :=
  a.priority < b.priority ∨ (a.priority = b.priority ∧ a.sysId < b.sysId)

/-- Equal-priority elements appear in insertion order — the residue of
`lexPS` that stable sorting preserves. -/
def tieR (a b : PySystem) : Prop :=
  a.priority = b.priority → a.sysId < b.sysId

/-! ### Operation sequences on an `EntityManager` (reachable states) -/

/-- The operations of the `EntityManager` API that mutate the manager. -/
inductive Op where
  | create : Op
  | addComp (entity_id : Int) (c : Component) : Op
  | removeComp (entity_id : Int) (component_type : Nat) : Op
  | removeEnt (entity_id : Int) : Op
  deriving DecidableEq

/-- Run one operation, accumulating the GUIDs handed out by
`create_entity`. -/
def applyOpT : EntityManager × List Int → Op → EntityManager × List Int
  | (em, tr), Op.create =>
    let r := em.create_entity
    (r.2, tr ++ [r.1._guid])
  | (em, tr), Op.addComp e c => (em.add_component e c, tr)
  | (em, tr), Op.removeComp e t => (em.remove_component e t, tr)
  | (em, tr), Op.removeEnt e => (em.remove_entity e, tr)

/-- Run a call sequence on a fresh manager; also the list of GUIDs
returned by the `create_entity` calls, in call order. -/
def runTrace (ops : List Op) : EntityManager × List Int :=
  ops.foldl applyOpT (EntityManager.init, [])

/-- The manager state reached by a call sequence on a fresh manager. -/
def runOps (ops : List Op) : EntityManager := (runTrace ops).1

/-- How many `create_entity` calls a call sequence makes. -/
def countCreates : List Op → Nat
  | [] => 0
  | Op.create :: rest => countCreates rest + 1
  | _ :: rest => countCreates rest

/-! ### Concrete states used by the witnesses -/

/-- A small concrete database state: component type 0 on entities 5 and 6,
component type 1 on entity 5 only. -/
def emEx : EntityManager :=
  { _database := [(0, [(5, ⟨0, 42⟩), (6, ⟨0, 43⟩)]), (1, [(5, ⟨1, 7⟩)])],
    _next_guid := 7 }

/-- A system manager with one registered system (type 2). -/
def smEx : SystemManager :=
  { _systems := [⟨2, 0⟩], _system_types := [(2, ⟨2, 0⟩)] }

/-- The spec's scheduler example: three system types registered with
priorities 3, 1, 2, in that order. -/
def regsEx : List (Nat × Int) := [(0, 3), (1, 1), (2, 2)]

/-- The manager state `registerAllPy regsEx` reaches (checked by `decide`
in the scheduler witness): the three systems sorted into priority order. -/
def pmEx : PySystemManager := ⟨[⟨1, 1, 1⟩, ⟨2, 2, 2⟩, ⟨0, 0, 3⟩]⟩

instance {ε α : Type} [DecidableEq ε] [DecidableEq α] : DecidableEq (Except ε α) :=
  fun x y =>
    match x, y with
    | .ok a, .ok b => decidable_of_iff (a = b) (by simp)
    | .error a, .error b => decidable_of_iff (a = b) (by simp)
    | .ok _, .error _ => isFalse (by simp)
    | .error _, .ok _ => isFalse (by simp)

/-! ## Lemmas about the dict model -/

section DictLemmas

variable {α β : Type} [DecidableEq α]

theorem dictGet_dictSet_self (l : List (α × β)) (a : α) (b : β) :
    dictGet (dictSet l a b) a = some b := by
  induction l with
  | nil => simp [dictSet, dictGet]
  | cons p rest ih =>
    obtain ⟨k, v⟩ := p
    by_cases h : k = a <;> simp [dictSet, dictGet, h, ih]

@[simp] theorem dictKeys_nil : dictKeys ([] : List (α × β)) = [] := rfl

@[simp] theorem dictKeys_cons (k : α) (v : β) (rest : List (α × β)) :
    dictKeys ((k, v) :: rest) = k :: dictKeys rest := rfl

theorem dictGet_dictSet_ne (l : List (α × β)) (a a' : α) (b : β) (h : a' ≠ a) :
    dictGet (dictSet l a b) a' = dictGet l a' := by
  induction l with
  | nil => simp [dictSet, dictGet, Ne.symm h]
  | cons p rest ih =>
    obtain ⟨k, v⟩ := p
    by_cases hk : k = a
    · subst hk
      simp [dictSet, dictGet, Ne.symm h]
    · by_cases hk' : k = a' <;> simp [dictSet, dictGet, hk, hk', h, ih]

theorem dictGet_none_iff (l : List (α × β)) (a : α) :
    dictGet l a = none ↔ a ∉ dictKeys l := by
  induction l with
  | nil => simp [dictGet]
  | cons p rest ih =>
    obtain ⟨k, v⟩ := p
    by_cases h : k = a
    · subst h
      simp [dictGet]
    · simp [dictGet, h, ih, Ne.symm h]

theorem dictMem_iff (l : List (α × β)) (a : α) :
    dictMem a l = true ↔ a ∈ dictKeys l := by
  rw [dictMem, Option.isSome_iff_ne_none]
  simp only [ne_eq, dictGet_none_iff, not_not]

theorem dictSet_ne_nil (l : List (α × β)) (a : α) (b : β) :
    dictSet l a b ≠ [] := by
  cases l with
  | nil => simp [dictSet]
  | cons p rest =>
    obtain ⟨k, v⟩ := p
    by_cases h : k = a <;> simp [dictSet, h]

theorem dictKeys_dictSet_of_mem (l : List (α × β)) (a : α) (b : β)
    (h : a ∈ dictKeys l) : dictKeys (dictSet l a b) = dictKeys l := by
  induction l with
  | nil => simp at h
  | cons p rest ih =>
    obtain ⟨k, v⟩ := p
    by_cases hk : k = a
    · simp [dictSet, hk]
    · have h' : a ∈ dictKeys rest := by
        rcases List.mem_cons.mp (by simpa using h) with h' | h'
        · exact absurd h'.symm hk
        · exact h'
      simp [dictSet, hk, ih h']

theorem dictKeys_dictSet_of_not_mem (l : List (α × β)) (a : α) (b : β)
    (h : a ∉ dictKeys l) : dictKeys (dictSet l a b) = dictKeys l ++ [a] := by
  induction l with
  | nil => simp [dictSet]
  | cons p rest ih =>
    obtain ⟨k, v⟩ := p
    have hk : k ≠ a := fun hh => h (by simp [hh])
    have h' : a ∉ dictKeys rest := fun hh => h (by simp [hh])
    simp [dictSet, hk, ih h']

theorem dictDel_sublist (l : List (α × β)) (a : α) : (dictDel l a).Sublist l := by
  induction l with
  | nil => simp [dictDel]
  | cons p rest ih =>
    obtain ⟨k, v⟩ := p
    by_cases h : k = a
    · simpa [dictDel, h] using (List.sublist_cons_self (k, v) rest)
    · simpa [dictDel, h] using ih.cons₂ (k, v)

theorem dictKeys_dictDel_sublist (l : List (α × β)) (a : α) :
    (dictKeys (dictDel l a)).Sublist (dictKeys l) :=
  (dictDel_sublist l a).map Prod.fst

theorem dictDel_of_not_mem (l : List (α × β)) (a : α) (h : a ∉ dictKeys l) :
    dictDel l a = l := by
  induction l with
  | nil => simp [dictDel]
  | cons p rest ih =>
    obtain ⟨k, v⟩ := p
    have hk : k ≠ a := fun hh => h (by simp [hh])
    have h' : a ∉ dictKeys rest := fun hh => h (by simp [hh])
    simp [dictDel, hk, ih h']

theorem dictGet_dictDel_ne (l : List (α × β)) (a a' : α) (h : a' ≠ a) :
    dictGet (dictDel l a) a' = dictGet l a' := by
  induction l with
  | nil => simp [dictDel]
  | cons p rest ih =>
    obtain ⟨k, v⟩ := p
    by_cases hk : k = a
    · subst hk
      simp [dictDel, dictGet, Ne.symm h]
    · by_cases hk' : k = a' <;> simp [dictDel, dictGet, hk, hk', h, ih]

theorem dictGet_dictDel_self (l : List (α × β)) (a : α)
    (h : (dictKeys l).Nodup) : dictGet (dictDel l a) a = none := by
  induction l with
  | nil => simp [dictDel, dictGet]
  | cons p rest ih =>
    obtain ⟨k, v⟩ := p
    rw [dictKeys_cons, List.nodup_cons] at h
    by_cases hk : k = a
    · subst hk
      simp only [dictDel, if_pos rfl]
      rw [dictGet_none_iff]
      exact h.1
    · simp [dictDel, dictGet, hk, ih h.2]

theorem mem_dictSet (l : List (α × β)) (a : α) (b : β) (p : α × β)
    (h : (dictKeys l).Nodup) (hp : p ∈ dictSet l a b) :
    (p ∈ l ∧ p.1 ≠ a) ∨ p = (a, b) := by
  induction l with
  | nil =>
    right
    simpa [dictSet] using hp
  | cons q rest ih =>
    obtain ⟨k, v⟩ := q
    rw [dictKeys_cons, List.nodup_cons] at h
    by_cases hk : k = a
    · subst hk
      rw [dictSet, if_pos rfl] at hp
      rcases List.mem_cons.mp hp with hp | hp
      · right
        rw [hp]
      · left
        refine ⟨List.mem_cons_of_mem _ hp, fun hh => ?_⟩
        exact h.1 (hh ▸ List.mem_map_of_mem Prod.fst hp)
    · rw [dictSet, if_neg hk] at hp
      rcases List.mem_cons.mp hp with hp | hp
      · left
        constructor
        · rw [hp]
          exact List.mem_cons_self _ _
        · rw [hp]
          exact hk
      · rcases ih h.2 hp with ⟨hmem, hne⟩ | heq
        · exact Or.inl ⟨List.mem_cons_of_mem _ hmem, hne⟩
        · exact Or.inr heq

theorem dictKeys_dictSet_nodup (l : List (α × β)) (a : α) (b : β)
    (h : (dictKeys l).Nodup) : (dictKeys (dictSet l a b)).Nodup := by
  by_cases hm : a ∈ dictKeys l
  · rw [dictKeys_dictSet_of_mem _ _ _ hm]
    exact h
  · rw [dictKeys_dictSet_of_not_mem _ _ _ hm, List.nodup_append]
    refine ⟨h, List.nodup_singleton _, ?_⟩
    intro x hx hx2
    rw [List.mem_singleton] at hx2
    exact hm (hx2 ▸ hx)

theorem dictGet_mem (l : List (α × β)) (a : α) (b : β)
    (h : dictGet l a = some b) : (a, b) ∈ l := by
  induction l with
  | nil => simp [dictGet] at h
  | cons p rest ih =>
    obtain ⟨k, v⟩ := p
    by_cases hk : k = a
    · subst hk
      rw [dictGet, if_pos rfl] at h
      rw [List.mem_cons]
      left
      simp [← Option.some_inj.mp h]
    · rw [dictGet, if_neg hk] at h
      exact List.mem_cons_of_mem _ (ih h)

theorem mem_keys_of_dictGet (l : List (α × β)) (a : α) (b : β)
    (h : dictGet l a = some b) : a ∈ dictKeys l := by
  by_contra hc
  rw [← dictGet_none_iff] at hc
  rw [hc] at h
  exact Option.noConfusion h

theorem eq_key_of_dictDel_eq_nil (l : List (α × β)) (a : α)
    (h : dictDel l a = []) : ∀ p ∈ l, p.1 = a := by
  intro p hp
  cases l with
  | nil => simp at hp
  | cons q rest =>
    obtain ⟨k, v⟩ := q
    by_cases hk : k = a
    · subst hk
      rw [dictDel, if_pos rfl] at h
      subst h
      rcases List.mem_cons.mp hp with hp | hp
      · rw [hp]
      · simp at hp
    · rw [dictDel, if_neg hk] at h
      simp at h

end DictLemmas

/-! ## EntityManager: invariant preservation and lookup lemmas -/

theorem add_then_get (em : EntityManager) (e : Int) (c : Component) :
    (em.add_component e c).component_for_entity e c.ctype = Except.ok c := by
  unfold EntityManager.add_component EntityManager.component_for_entity
  simp [dictGet_dictSet_self]

theorem dbWF_delAndPrune (db : Db) (t : Nat) (e : Int) (h : dbWF db) :
    dbWF (delAndPrune db t e) := by
  unfold delAndPrune
  cases hg : dictGet db t with
  | none => exact h
  | some inner =>
    dsimp only
    by_cases hm : dictMem e inner
    · rw [if_pos hm]
      by_cases hnil : dictDel inner e = []
      · rw [if_pos hnil]
        constructor
        · intro p hp
          exact h.1 p ((dictDel_sublist db t).subset hp)
        · exact h.2.sublist (dictKeys_dictDel_sublist db t)
      · rw [if_neg hnil]
        have hWFinner := h.1 (t, inner) (dictGet_mem _ _ _ hg)
        constructor
        · intro p hp
          rcases mem_dictSet _ _ _ _ h.2 hp with ⟨hmem, _⟩ | heq
          · exact h.1 p hmem
          · rw [heq]
            exact ⟨hnil, hWFinner.2.sublist (dictKeys_dictDel_sublist inner e)⟩
        · rw [dictKeys_dictSet_of_mem _ _ _ (mem_keys_of_dictGet _ _ _ hg)]
          exact h.2
    · rw [if_neg hm]
      exact h

theorem dbWF_add_component (em : EntityManager) (e : Int) (c : Component)
    (h : dbInv em) : dbInv (em.add_component e c) := by
  unfold dbInv dbWF EntityManager.add_component
  dsimp only
  set t := c.ctype with ht
  by_cases hm : dictMem t em._database
  · rw [if_pos hm]
    have hmem : t ∈ dictKeys em._database := (dictMem_iff _ _).mp hm
    obtain ⟨i0, hi0⟩ := Option.isSome_iff_exists.mp hm
    have hWFi0 := h.1 (t, i0) (dictGet_mem _ _ _ hi0)
    constructor
    · intro p hp
      rcases mem_dictSet _ _ _ _ h.2 hp with ⟨hmemp, _⟩ | heq
      · exact h.1 p hmemp
      · rw [heq]
        refine ⟨dictSet_ne_nil _ _ _, ?_⟩
        simp only [hi0, Option.getD_some]
        exact dictKeys_dictSet_nodup i0 e c hWFi0.2
    · rw [dictKeys_dictSet_of_mem _ _ _ hmem]
      exact h.2
  · rw [if_neg hm]
    have hnmem : t ∉ dictKeys em._database := fun hh => hm ((dictMem_iff _ _).mpr hh)
    have hkeys1 : dictKeys (dictSet em._database t ([] : List (Int × Component))) =
        dictKeys em._database ++ [t] := dictKeys_dictSet_of_not_mem _ _ _ hnmem
    have hnd1 : (dictKeys (dictSet em._database t ([] : List (Int × Component)))).Nodup := by
      rw [hkeys1, List.nodup_append]
      refine ⟨h.2, List.nodup_singleton t, ?_⟩
      intro a ha hb
      rw [List.mem_singleton] at hb
      exact hnmem (hb ▸ ha)
    have hmem1 : t ∈ dictKeys (dictSet em._database t ([] : List (Int × Component))) := by
      rw [hkeys1]
      simp
    constructor
    · intro p hp
      rcases mem_dictSet _ _ _ _ hnd1 hp with ⟨hmemp, hnep⟩ | heq
      · rcases mem_dictSet _ _ _ _ h.2 hmemp with ⟨hmemp0, _⟩ | heq0
        · exact h.1 p hmemp0
        · exact absurd (by rw [heq0]) hnep
      · rw [heq]
        refine ⟨dictSet_ne_nil _ _ _, ?_⟩
        simp only [dictGet_dictSet_self, Option.getD_some]
        exact dictKeys_dictSet_nodup ([] : List (Int × Component)) e c (by simp)
    · rw [dictKeys_dictSet_of_mem _ _ _ hmem1]
      exact hnd1

theorem dbWF_removeEntityLoop (ks : List Nat) (e : Int) :
    ∀ db : Db, dbWF db → dbWF (removeEntityLoop e ks db) := by
  induction ks with
  | nil => exact fun db h => h
  | cons t rest ih =>
    intro db h
    exact ih _ (dbWF_delAndPrune db t e h)

theorem dbInv_applyOpT (st : EntityManager × List Int) (op : Op)
    (h : dbInv st.1) : dbInv (applyOpT st op).1 := by
  obtain ⟨em, tr⟩ := st
  cases op with
  | create => exact h
  | addComp e c => exact dbWF_add_component em e c h
  | removeComp e t => exact dbWF_delAndPrune em._database t e h
  | removeEnt e => exact dbWF_removeEntityLoop _ e em._database h

theorem dbInv_foldl (ops : List Op) :
    ∀ st : EntityManager × List Int, dbInv st.1 → dbInv (ops.foldl applyOpT st).1 := by
  induction ops with
  | nil => exact fun st h => h
  | cons op rest ih =>
    intro st h
    exact ih _ (dbInv_applyOpT st op h)

theorem dbInv_init : dbInv EntityManager.init := by
  constructor <;> simp [EntityManager.init]

theorem dbInv_runOps (ops : List Op) : dbInv (runOps ops) :=
  dbInv_foldl ops _ dbInv_init

/-! ## remove_entity: snapshot-loop characterization -/

theorem delAndPrune_cons_ne (t k : Nat) (i : List (Int × Component)) (rest : Db)
    (e : Int) (h : k ≠ t) :
    delAndPrune ((t, i) :: rest) k e = (t, i) :: delAndPrune rest k e := by
  unfold delAndPrune
  rw [dictGet, if_neg (Ne.symm h)]
  cases dictGet rest k with
  | none => rfl
  | some inner =>
    dsimp only
    by_cases hm : dictMem e inner
    · rw [if_pos hm, if_pos hm]
      by_cases hnil : dictDel inner e = []
      · rw [if_pos hnil, if_pos hnil, dictDel, if_neg (Ne.symm h)]
      · rw [if_neg hnil, if_neg hnil, dictSet, if_neg (Ne.symm h)]
    · rw [if_neg hm, if_neg hm]

theorem removeEntityLoop_cons_not_mem (e : Int) (ks : List Nat) (t : Nat)
    (i : List (Int × Component)) (rest : Db) (h : t ∉ ks) :
    removeEntityLoop e ks ((t, i) :: rest) = (t, i) :: removeEntityLoop e ks rest := by
  induction ks generalizing rest with
  | nil => rfl
  | cons k ks2 ih =>
    have hk : k ≠ t := fun hh => h (hh ▸ List.mem_cons_self _ _)
    have h2 : t ∉ ks2 := fun hh => h (List.mem_cons_of_mem _ hh)
    rw [removeEntityLoop, delAndPrune_cons_ne t k i rest e hk, removeEntityLoop]
    exact ih (delAndPrune rest k e) h2

theorem delAndPrune_cons_self (t : Nat) (i : List (Int × Component)) (rest : Db)
    (e : Int) :
    delAndPrune ((t, i) :: rest) t e =
      if dictMem e i then
        (if dictDel i e = [] then rest else (t, dictDel i e) :: rest)
      else (t, i) :: rest := by
  unfold delAndPrune
  rw [dictGet, if_pos rfl]
  dsimp only
  by_cases hm : dictMem e i
  · rw [if_pos hm, if_pos hm]
    by_cases hnil : dictDel i e = []
    · rw [if_pos hnil, if_pos hnil, dictDel, if_pos rfl]
    · rw [if_neg hnil, if_neg hnil, dictSet, if_pos rfl]
  · rw [if_neg hm, if_neg hm]

theorem removeEntityLoop_spec (db : Db) (e : Int) (h : dbWF db) :
    removeEntityLoop e (dictKeys db) db = removeEntitySpec db e := by
  induction db with
  | nil => rfl
  | cons p rest ih =>
    obtain ⟨t, i⟩ := p
    have hnd := h.2
    rw [dictKeys_cons, List.nodup_cons] at hnd
    have hWFrest : dbWF rest :=
      ⟨fun q hq => h.1 q (List.mem_cons_of_mem _ hq), hnd.2⟩
    have hti : t ∉ dictKeys rest := hnd.1
    have hine : i ≠ [] := (h.1 (t, i) (List.mem_cons_self _ _)).1
    rw [dictKeys_cons, removeEntityLoop, delAndPrune_cons_self]
    by_cases hm : dictMem e i
    · rw [if_pos hm]
      by_cases hnil : dictDel i e = []
      · rw [if_pos hnil, ih hWFrest]
        unfold removeEntitySpec
        simp [hnil]
      · rw [if_neg hnil, removeEntityLoop_cons_not_mem e _ t _ rest hti, ih hWFrest]
        unfold removeEntitySpec
        simp [hnil]
    · rw [if_neg hm]
      have hdel : dictDel i e = i :=
        dictDel_of_not_mem i e (fun hh => hm ((dictMem_iff _ _).mpr hh))
      rw [removeEntityLoop_cons_not_mem e _ t _ rest hti, ih hWFrest]
      unfold removeEntitySpec
      simp [hdel, hine]

theorem dictKeys_map_del (db : Db) (e : Int) :
    dictKeys (db.map (fun p => (p.1, dictDel p.2 e))) = dictKeys db := by
  unfold dictKeys
  rw [List.map_map]
  rfl

theorem removeEntitySpec_keys_sublist (db : Db) (e : Int) :
    (dictKeys (removeEntitySpec db e)).Sublist (dictKeys db) := by
  unfold removeEntitySpec
  have h1 := (List.filter_sublist
    (l := db.map (fun p => (p.1, dictDel p.2 e)))
    (p := fun p => decide (p.2 ≠ []))).map Prod.fst
  rw [show List.map Prod.fst (db.map (fun p => (p.1, dictDel p.2 e))) =
      dictKeys (db.map (fun p => (p.1, dictDel p.2 e))) from rfl,
    dictKeys_map_del] at h1
  exact h1

theorem dictGet_removeEntitySpec (db : Db) (e : Int) (t : Nat)
    (h : (dictKeys db).Nodup) :
    dictGet (removeEntitySpec db e) t =
      match dictGet db t with
      | none => none
      | some i => if dictDel i e = [] then none else some (dictDel i e) := by
  induction db with
  | nil => rfl
  | cons p rest ih =>
    obtain ⟨k, i⟩ := p
    rw [dictKeys_cons, List.nodup_cons] at h
    by_cases hk : k = t
    · subst hk
      rw [dictGet, if_pos rfl]
      dsimp only
      by_cases hnil : dictDel i e = []
      · rw [if_pos hnil]
        have : removeEntitySpec ((k, i) :: rest) e = removeEntitySpec rest e := by
          unfold removeEntitySpec
          simp [hnil]
        rw [this, dictGet_none_iff]
        intro hmem
        exact h.1 ((removeEntitySpec_keys_sublist rest e).subset hmem)
      · rw [if_neg hnil]
        have : removeEntitySpec ((k, i) :: rest) e =
            (k, dictDel i e) :: removeEntitySpec rest e := by
          unfold removeEntitySpec
          simp [hnil]
        rw [this, dictGet, if_pos rfl]
    · rw [dictGet, if_neg hk]
      by_cases hnil : dictDel i e = []
      · have : removeEntitySpec ((k, i) :: rest) e = removeEntitySpec rest e := by
          unfold removeEntitySpec
          simp [hnil]
        rw [this, ih h.2]
      · have : removeEntitySpec ((k, i) :: rest) e =
            (k, dictDel i e) :: removeEntitySpec rest e := by
          unfold removeEntitySpec
          simp [hnil]
        rw [this, dictGet, if_neg hk, ih h.2]

/-! ## system.py scheduler: stable-sort lemmas -/

theorem lexPS_implies_tieR (a b : PySystem) (h : lexPS a b) : tieR a b := by
  intro hp
  rcases h with h | ⟨_, h⟩
  · exact absurd hp (ne_of_lt h)
  · exact h

theorem lexPS_ple (a b : PySystem) (h : lexPS a b) : a.priority ≤ b.priority := by
  rcases h with h | ⟨h, _⟩
  · exact le_of_lt h
  · exact le_of_eq h

theorem sortInsert_perm (x : PySystem) (l : List PySystem) :
    List.Perm (sortInsert x l) (x :: l) := by
  induction l with
  | nil => exact List.Perm.refl _
  | cons y ys ih =>
    by_cases h : y.priority ≤ x.priority
    · rw [sortInsert, if_pos h]
      exact (ih.cons y).trans (List.Perm.swap x y ys)
    · rw [sortInsert, if_neg h]

theorem sortInsert_pairwise (x : PySystem) (l : List PySystem)
    (h1 : List.Pairwise lexPS l) (h2 : ∀ y ∈ l, tieR y x) :
    List.Pairwise lexPS (sortInsert x l) := by
  induction l with
  | nil => simp [sortInsert]
  | cons y ys ih =>
    rw [List.pairwise_cons] at h1
    by_cases h : y.priority ≤ x.priority
    · rw [sortInsert, if_pos h]
      rw [List.pairwise_cons]
      constructor
      · intro z hz
        rcases List.mem_cons.mp ((sortInsert_perm x ys).mem_iff.mp hz) with hz | hz
        · subst hz
          rcases lt_or_eq_of_le h with hlt | heq
          · exact Or.inl hlt
          · exact Or.inr ⟨heq, h2 y (List.mem_cons_self _ _) heq⟩
        · exact h1.1 z hz
      · exact ih h1.2 (fun z hz => h2 z (List.mem_cons_of_mem _ hz))
    · rw [sortInsert, if_neg h]
      have hxy : x.priority < y.priority := not_le.mp h
      rw [List.pairwise_cons]
      refine ⟨?_, List.pairwise_cons.mpr ⟨h1.1, h1.2⟩⟩
      intro z hz
      rcases List.mem_cons.mp hz with hz | hz
      · subst hz
        exact Or.inl hxy
      · exact Or.inl (lt_of_lt_of_le hxy (lexPS_ple y z (h1.1 z hz)))

theorem pySort_go (l : List PySystem) :
    ∀ acc, List.Pairwise lexPS acc →
      (∀ y ∈ acc, ∀ x ∈ l, tieR y x) →
      List.Pairwise tieR l →
      List.Pairwise lexPS (l.foldl (fun a x => sortInsert x a) acc) ∧
        List.Perm (l.foldl (fun a x => sortInsert x a) acc) (acc ++ l) := by
  induction l with
  | nil =>
    intro acc h1 _ _
    exact ⟨h1, by simp⟩
  | cons x xs ih =>
    intro acc h1 h2 h3
    rw [List.foldl_cons]
    rw [List.pairwise_cons] at h3
    have hacc : List.Pairwise lexPS (sortInsert x acc) :=
      sortInsert_pairwise x acc h1 (fun y hy => h2 y hy x (List.mem_cons_self _ _))
    have h2' : ∀ y ∈ sortInsert x acc, ∀ z ∈ xs, tieR y z := by
      intro y hy z hz
      rcases List.mem_cons.mp ((sortInsert_perm x acc).mem_iff.mp hy) with hy | hy
      · subst hy
        exact h3.1 z hz
      · exact h2 y hy z (List.mem_cons_of_mem _ hz)
    obtain ⟨p1, p2⟩ := ih (sortInsert x acc) hacc h2' h3.2
    refine ⟨p1, ?_⟩
    have s1 : (sortInsert x acc ++ xs).Perm ((x :: acc) ++ xs) :=
      (sortInsert_perm x acc).append_right xs
    exact p2.trans (s1.trans List.perm_middle.symm)

theorem pySort_spec (l : List PySystem) (h : List.Pairwise tieR l) :
    List.Pairwise lexPS (pySort l) ∧ List.Perm (pySort l) l := by
  have := pySort_go l [] List.Pairwise.nil (by simp) h
  simpa [pySort] using this

/-! ## system.py scheduler: registration -/

theorem registerFromPy_spec (rest : List (Nat × Int)) :
    ∀ (m : PySystemManager) (i : Nat),
      List.Pairwise lexPS m._systems →
      (∀ y ∈ m._systems, y.sysId < i) →
      (∀ y ∈ m._systems, ∀ q ∈ rest, y.sysType ≠ q.1) →
      (rest.map Prod.fst).Nodup →
      ∃ m2, registerFromPy m i rest = some m2 ∧
        List.Perm m2._systems (m._systems ++ mkPySystemsFrom i rest) ∧
        List.Pairwise lexPS m2._systems := by
  induction rest with
  | nil =>
    intro m i h1 _ _ _
    exact ⟨m, rfl, by simp [mkPySystemsFrom], h1⟩
  | cons q rest2 ih =>
    obtain ⟨t, p⟩ := q
    intro m i h1 hid htypes hnd
    have hfilter : (m._systems.filter (fun s => s.sysType == ((⟨t, i, 0⟩ : PySystem)).sysType)).isEmpty = true := by
      rw [List.isEmpty_iff, List.filter_eq_nil_iff]
      intro s hs
      simpa using htypes s hs (t, p) (List.mem_cons_self _ _)
    have hstep : registerFromPy m i ((t, p) :: rest2) =
        registerFromPy ⟨pySort (m._systems ++ [⟨t, i, p⟩])⟩ (i + 1) rest2 := by
      rw [registerFromPy]
      unfold PySystemManager.add_system
      rw [if_pos hfilter]
      rfl
    set inst : PySystem := ⟨t, i, p⟩ with hinst
    set ns : List PySystem := pySort (m._systems ++ [inst]) with hns
    have htieIn : List.Pairwise tieR (m._systems ++ [inst]) := by
      rw [List.pairwise_append]
      refine ⟨h1.imp (fun h => lexPS_implies_tieR _ _ h), List.pairwise_singleton _ _, ?_⟩
      intro y hy z hz _
      rw [List.mem_singleton] at hz
      rw [hz]
      exact hid y hy
    obtain ⟨hnsSorted, hnsPerm⟩ := pySort_spec _ htieIn
    rw [List.map_cons, List.nodup_cons] at hnd
    have hmemNs : ∀ y ∈ ns, y ∈ m._systems ∨ y = inst := by
      intro y hy
      rcases List.mem_append.mp (hnsPerm.mem_iff.mp hy) with hy | hy
      · exact Or.inl hy
      · exact Or.inr (List.mem_singleton.mp hy)
    have hid' : ∀ y ∈ ns, y.sysId < i + 1 := by
      intro y hy
      rcases hmemNs y hy with hy | hy
      · exact Nat.lt_succ_of_lt (hid y hy)
      · rw [hy]
        exact Nat.lt_succ_self i
    have htypes' : ∀ y ∈ ns, ∀ q2 ∈ rest2, y.sysType ≠ q2.1 := by
      intro y hy q2 hq2
      rcases hmemNs y hy with hy | hy
      · exact htypes y hy q2 (List.mem_cons_of_mem _ hq2)
      · rw [hy]
        intro hh
        have hq2m : q2.1 ∈ List.map Prod.fst rest2 := List.mem_map_of_mem Prod.fst hq2
        rw [← hh] at hq2m
        exact hnd.1 hq2m
    obtain ⟨m2, hm2, hm2perm, hm2sorted⟩ :=
      ih ⟨ns⟩ (i + 1) hnsSorted hid' htypes' hnd.2
    refine ⟨m2, by rw [hstep]; exact hm2, ?_, hm2sorted⟩
    have s1 : (ns ++ mkPySystemsFrom (i + 1) rest2).Perm
        ((m._systems ++ [inst]) ++ mkPySystemsFrom (i + 1) rest2) :=
      hnsPerm.append_right _
    have s2 : (m._systems ++ [inst]) ++ mkPySystemsFrom (i + 1) rest2 =
        m._systems ++ mkPySystemsFrom i ((t, p) :: rest2) := by
      rw [List.append_assoc]
      rfl
    exact hm2perm.trans (s2 ▸ s1)

/-! ## create_entity: GUID allocation along a call sequence -/

theorem applyOpT_foldl_trace (ops : List Op) :
    ∀ (em : EntityManager) (tr : List Int),
      (ops.foldl applyOpT (em, tr)).2 =
        tr ++ List.map (fun k : Nat => em._next_guid + (k : Int))
          (List.range (countCreates ops)) ∧
      (ops.foldl applyOpT (em, tr)).1._next_guid = em._next_guid + countCreates ops := by
  induction ops with
  | nil =>
    intro em tr
    simp [countCreates]
  | cons op rest ih =>
    intro em tr
    cases op with
    | create =>
      rw [List.foldl_cons]
      have hred : applyOpT (em, tr) Op.create =
          ({ em with _next_guid := em._next_guid + 1 }, tr ++ [em._next_guid]) := rfl
      rw [hred]
      obtain ⟨h1, h2⟩ := ih { em with _next_guid := em._next_guid + 1 } (tr ++ [em._next_guid])
      constructor
      · rw [h1]
        have hcnt : countCreates (Op.create :: rest) = countCreates rest + 1 := rfl
        rw [hcnt, List.append_assoc]
        congr 1
        rw [List.range_succ_eq_map, List.map_cons, List.map_map]
        have hfun : ((fun k : Nat => em._next_guid + (k : Int)) ∘ Nat.succ) =
            (fun k : Nat => (em._next_guid + 1) + (k : Int)) := by
          funext k
          simp only [Function.comp]
          push_cast
          ring
        rw [hfun]
        simp
      · rw [h2]
        have hcnt : countCreates (Op.create :: rest) = countCreates rest + 1 := rfl
        rw [hcnt]
        push_cast
        ring
    | addComp e c =>
      rw [List.foldl_cons]
      have hred : applyOpT (em, tr) (Op.addComp e c) = (em.add_component e c, tr) := rfl
      rw [hred]
      obtain ⟨h1, h2⟩ := ih (em.add_component e c) tr
      have hg : (em.add_component e c)._next_guid = em._next_guid := rfl
      have hcnt : countCreates (Op.addComp e c :: rest) = countCreates rest := rfl
      rw [hcnt]
      simp [h1, h2, hg]
    | removeComp e t =>
      rw [List.foldl_cons]
      have hred : applyOpT (em, tr) (Op.removeComp e t) = (em.remove_component e t, tr) := rfl
      rw [hred]
      obtain ⟨h1, h2⟩ := ih (em.remove_component e t) tr
      have hg : (em.remove_component e t)._next_guid = em._next_guid := rfl
      have hcnt : countCreates (Op.removeComp e t :: rest) = countCreates rest := rfl
      rw [hcnt]
      simp [h1, h2, hg]
    | removeEnt e =>
      rw [List.foldl_cons]
      have hred : applyOpT (em, tr) (Op.removeEnt e) = (em.remove_entity e, tr) := rfl
      rw [hred]
      obtain ⟨h1, h2⟩ := ih (em.remove_entity e) tr
      have hg : (em.remove_entity e)._next_guid = em._next_guid := rfl
      have hcnt : countCreates (Op.removeEnt e :: rest) = countCreates rest := rfl
      rw [hcnt]
      simp [h1, h2, hg]

theorem runTrace_guids (ops : List Op) :
    (runTrace ops).2 = List.map (fun k : Nat => (k : Int)) (List.range (countCreates ops)) := by
  have h := (applyOpT_foldl_trace ops EntityManager.init []).1
  simpa [runTrace, EntityManager.init] using h

/-! ## The claims -/

/-- C1: for every reachable state of an `EntityManager` (any sequence of
`create_entity`, `add_component`, `remove_component` and `remove_entity`
calls on a fresh manager), a component-type key is present in the outer
database mapping iff its inner entity-to-component mapping is non-empty:
every operation that can empty an inner mapping prunes the type key
immediately, so no empty inner mapping is ever observable. -/
theorem c1_type_key_iff_inner_nonempty (ops : List Op) (t : Nat) :
    t ∈ dictKeys (runOps ops)._database ↔
      ∃ inner, dictGet (runOps ops)._database t = some inner ∧ inner ≠ [] := by
  have hinv := dbInv_runOps ops
  constructor
  · intro hmem
    cases hg : dictGet (runOps ops)._database t with
    | none => exact absurd hmem ((dictGet_none_iff _ _).mp hg)
    | some inner =>
      exact ⟨inner, rfl, (hinv.1 (t, inner) (dictGet_mem _ _ _ hg)).1⟩
  · rintro ⟨inner, hg, _⟩
    exact mem_keys_of_dictGet _ _ _ hg

/-- C2: `remove_entity` iterates over a stable snapshot of the type keys
taken before the loop starts, so on every well-formed database state the
call completes normally and equals the clean per-type removal: every type
key in the snapshot is processed (the entity deleted from its inner
mapping, the key pruned when the mapping became empty), none skipped or
repeated. -/
theorem c2_remove_entity_snapshot (em : EntityManager) (e : Int) (h : dbInv em) :
    (em.remove_entity e)._database = removeEntitySpec em._database e :=
  removeEntityLoop_spec em._database e h

/-- C2 witness. -/
theorem c2_witness :
    (emEx.remove_entity 5)._database = removeEntitySpec emEx._database 5 :=
  c2_remove_entity_snapshot emEx 5 (by decide)

/-- C3: registering any set of systems (distinct concrete types) with
priorities and then calling the scheduler's update invokes each registered
system's update hook exactly once, in ascending order of the priority
recorded at registration, equal priorities in insertion order (`sysId`
records the insertion index; `lexPS` is the priority-then-insertion
order). -/
theorem c3_update_priority_order (regs : List (Nat × Int)) (m : PySystemManager)
    (dt : Int) (hnd : (regs.map Prod.fst).Nodup)
    (hreg : registerAllPy regs = some m) :
    (m.update_systems dt).map Prod.fst = m._systems ∧
    List.Perm m._systems (mkPySystemsFrom 0 regs) ∧
    List.Pairwise lexPS m._systems := by
  obtain ⟨m2, hm2, hperm, hsort⟩ :=
    registerFromPy_spec regs ⟨[]⟩ 0 (by constructor) (by simp) (by simp) hnd
  rw [registerAllPy, hm2] at hreg
  obtain rfl : m2 = m := Option.some_inj.mp hreg
  refine ⟨?_, by simpa using hperm, hsort⟩
  rw [PySystemManager.update_systems, List.map_map]
  have hcomp : (Prod.fst ∘ fun s : PySystem => (s, dt)) = fun s => s := rfl
  rw [hcomp]
  exact List.map_id' _

/-- C3 witness: the spec's example — priorities [3,1,2] are invoked in
priority order [1,2,3]. -/
theorem c3_witness :
    ((pmEx.update_systems 0).map Prod.fst = pmEx._systems ∧
      List.Perm pmEx._systems (mkPySystemsFrom 0 regsEx) ∧
      List.Pairwise lexPS pmEx._systems) ∧
    (pmEx.update_systems 0).map (fun q => q.1.priority) = [1, 2, 3] :=
  ⟨c3_update_priority_order regsEx pmEx 0 (by decide) (by decide), by decide⟩

/-- C4: `component_for_entity` fails iff the entity has no component of
the requested type in the database; the failure is the typed
`NonexistentComponentTypeForEntity` carrying exactly that entity and type
(never a silently defaulted result); when present, the stored component is
returned. -/
theorem c4_component_for_entity_typed_failure (em : EntityManager) (e : Int)
    (t : Nat) :
    (em.component_for_entity e t = Except.error ⟨e, t⟩ ↔
        lookup2 em._database t e = none) ∧
    (∀ c, lookup2 em._database t e = some c →
        em.component_for_entity e t = Except.ok c) ∧
    (∀ err, em.component_for_entity e t = Except.error err → err = ⟨e, t⟩) := by
  unfold EntityManager.component_for_entity lookup2
  cases hg : dictGet em._database t with
  | none => simp
  | some inner =>
    dsimp only
    cases hg2 : dictGet inner e with
    | none => simp [hg2]
    | some c => simp [hg2]

/-- C4 witness. -/
theorem c4_witness :
    emEx.component_for_entity 9 0 = Except.error ⟨9, 0⟩ ∧
    emEx.component_for_entity 5 0 = Except.ok ⟨0, 42⟩ :=
  ⟨(c4_component_for_entity_typed_failure emEx 9 0).1.mpr (by decide),
   (c4_component_for_entity_typed_failure emEx 5 0).2.1 ⟨0, 42⟩ (by decide)⟩

/-- C5: `add_system` with an instance whose concrete type is already
registered fails with a duplicate-system-type error carrying the offending
type, and returns the manager state (ordered system sequence and
registered-type mapping) exactly as it was: the duplicate is not
inserted. -/
theorem c5_add_system_duplicate (m : SystemManager) (s : MSystem)
    (h : dictMem s.sysType m._system_types = true) :
    m.add_system s = (m, some ⟨s.sysType⟩) := by
  unfold SystemManager.add_system
  rw [if_pos h]

/-- C5 witness: a second instance (`sysId` 1) of the registered type 2. -/
theorem c5_witness : smEx.add_system ⟨2, 1⟩ = (smEx, some ⟨2⟩) :=
  c5_add_system_duplicate smEx ⟨2, 1⟩ (by decide)

/-- C6: adding two components of the same concrete type to one entity
overwrites — `component_for_entity` returns the later one; and after a
single add, the identical instance is returned. -/
theorem c6_add_component_overwrite (em : EntityManager) (e : Int)
    (c1 c2 : Component) (h : c1.ctype = c2.ctype) :
    ((em.add_component e c1).add_component e c2).component_for_entity e
        c2.ctype = Except.ok c2 ∧
    (em.add_component e c1).component_for_entity e c1.ctype = Except.ok c1 :=
  ⟨add_then_get _ e c2, add_then_get em e c1⟩

/-- C6 witness. -/
theorem c6_witness :
    ((EntityManager.init.add_component 3 ⟨0, 1⟩).add_component 3
        ⟨0, 2⟩).component_for_entity 3 0 = Except.ok ⟨0, 2⟩ ∧
    (EntityManager.init.add_component 3 ⟨0, 1⟩).component_for_entity 3 0 =
      Except.ok ⟨0, 1⟩ :=
  c6_add_component_overwrite EntityManager.init 3 ⟨0, 1⟩ ⟨0, 2⟩ (by decide)

/-- C7: `remove_entity e` deletes `e` from every type's inner mapping and
prunes exactly the types left empty, while every association of any other
entity is unchanged. -/
theorem c7_remove_entity_frame (em : EntityManager) (e : Int) (h : dbInv em) :
    (∀ (t : Nat) (e2 : Int), e2 ≠ e →
        lookup2 (em.remove_entity e)._database t e2 = lookup2 em._database t e2) ∧
    (∀ t : Nat, lookup2 (em.remove_entity e)._database t e = none) ∧
    (∀ t : Nat, t ∈ dictKeys (em.remove_entity e)._database ↔
        ∃ inner, dictGet em._database t = some inner ∧ dictDel inner e ≠ []) := by
  have hdb : (em.remove_entity e)._database = removeEntitySpec em._database e :=
    removeEntityLoop_spec em._database e h
  refine ⟨?_, ?_, ?_⟩
  · intro t e2 hne
    rw [hdb]
    unfold lookup2
    rw [dictGet_removeEntitySpec em._database e t h.2]
    cases hg : dictGet em._database t with
    | none => rfl
    | some inner =>
      dsimp only
      by_cases hnil : dictDel inner e = []
      · rw [if_pos hnil]
        have hnone : dictGet inner e2 = none := by
          rw [dictGet_none_iff]
          intro hmem
          obtain ⟨p, hp, hp1⟩ := List.mem_map.mp hmem
          exact hne (hp1 ▸ eq_key_of_dictDel_eq_nil inner e hnil p hp)
        simp [hnone]
      · rw [if_neg hnil]
        exact dictGet_dictDel_ne inner e e2 hne
  · intro t
    rw [hdb]
    unfold lookup2
    rw [dictGet_removeEntitySpec em._database e t h.2]
    cases hg : dictGet em._database t with
    | none => rfl
    | some inner =>
      dsimp only
      by_cases hnil : dictDel inner e = []
      · rw [if_pos hnil]
        rfl
      · rw [if_neg hnil]
        have hWFinner := h.1 (t, inner) (dictGet_mem _ _ _ hg)
        exact dictGet_dictDel_self inner e hWFinner.2
  · intro t
    rw [hdb]
    have hiff : (t ∈ dictKeys (removeEntitySpec em._database e)) ↔
        dictGet (removeEntitySpec em._database e) t ≠ none := by
      rw [ne_eq, dictGet_none_iff, not_not]
    rw [hiff, dictGet_removeEntitySpec em._database e t h.2]
    cases hg : dictGet em._database t with
    | none => simp
    | some inner =>
      dsimp only
      by_cases hnil : dictDel inner e = []
      · rw [if_pos hnil]
        simp [hnil]
      · rw [if_neg hnil]
        simp [hnil]

/-- C7 witness: removing entity 5 from `emEx` keeps entity 6's component
of type 0, drops entity 5's component of type 1 (type 1 is pruned). -/
theorem c7_witness :
    lookup2 (emEx.remove_entity 5)._database 0 6 = lookup2 emEx._database 0 6 ∧
    lookup2 (emEx.remove_entity 5)._database 1 5 = none :=
  ⟨(c7_remove_entity_frame emEx 5 (by decide)).1 0 6 (by decide),
   (c7_remove_entity_frame emEx 5 (by decide)).2.1 1⟩

/-- C8: `create_entity` returns an `Entity` whose identifier is the current
counter value, increments the counter by one, and leaves the database
unchanged; along any call sequence on one fresh manager the identifiers
returned by the `create_entity` calls are exactly 0,1,2,… — pairwise
distinct, strictly increasing, never reused even after entity deletion. -/
theorem c8_create_entity_guids :
    (∀ em : EntityManager,
        (em.create_entity).1._guid = em._next_guid ∧
        (em.create_entity).2._next_guid = em._next_guid + 1 ∧
        (em.create_entity).2._database = em._database) ∧
    (∀ ops : List Op,
        (runTrace ops).2 =
          List.map (fun k : Nat => (k : Int)) (List.range (countCreates ops))) ∧
    (∀ ops : List Op, List.Pairwise (fun a b : Int => a < b) (runTrace ops).2) := by
  refine ⟨fun em => ⟨rfl, rfl, rfl⟩, runTrace_guids, fun ops => ?_⟩
  rw [runTrace_guids, List.pairwise_map]
  exact (List.pairwise_lt_range (countCreates ops)).imp
    (fun hab => by exact_mod_cast hab)

/-- C9: two entities, or an entity and a raw integer, are equal iff their
integer identifiers match, and an entity's hash is exactly its integer
identifier, so either form works as a database key. -/
theorem c9_entity_equality_hash :
    (∀ e1 e2 : Entity, e1.pyEq (.ent e2) = true ↔ e1._guid = e2._guid) ∧
    (∀ (e : Entity) (n : Int), e.pyEq (.int n) = true ↔ e._guid = n) ∧
    (∀ e : Entity, pyHash (.ent e) = e._guid) := by
  refine ⟨fun e1 e2 => ?_, fun e n => ?_, fun e => rfl⟩ <;>
    simp [Entity.pyEq, pyHash]

/-- C10: `remove_system` (managers.py) with an unregistered type raises a
`KeyError` from the `self._system_types[system_type]` subscript before any
mutation: the returned state is the manager unchanged, with the lookup
error carrying the missing type; it is not a silent no-op. -/
theorem c10_remove_system_keyerror (m : SystemManager) (t : Nat)
    (h : dictGet m._system_types t = none) :
    m.remove_system t = (m, some t) := by
  unfold SystemManager.remove_system
  rw [h]

/-- C10 witness: type 3 is not registered in `smEx`. -/
theorem c10_witness : smEx.remove_system 3 = (smEx, some 3) :=
  c10_remove_system_keyerror smEx 3 (by decide)

end ECS
